import Mathlib

/-!
Verification of the Connect `static` middleware
(`lib/connect/middleware/static.js`).

The middleware is embedded shallowly: the asynchronous callback chain of
the JavaScript handler is flattened into a pure function from
(configuration, environment, request, cache store, filesystem) to a
result holding the outcome (a written response or a `next(...)` call),
the updated cache store, and counters of the filesystem / cache
operations performed.  Environment collaborators that live outside the
repository (Node's `url.parse`, `decodeURIComponent`, `Path.join`,
`Date` parsing, `mime.lookup`, `fs`) are modelled explicitly; everything
else is translated line by line from the source.
-/

namespace ConnectStatic

/-- JavaScript truthiness for an optional header/string value:
`undefined` (absent) and the empty string are falsy. -/
def truthy : Option String → Bool
  | none => false
  | some s => s ≠ ""

/-- An incoming request: method, raw undecoded URL (path plus query),
and the two conditional-request headers the middleware reads
(`req.headers['if-modified-since']`, `req.headers['if-none-match']`). -/
structure Req where
  method : String
  url : String
  ifModifiedSince : Option String
  ifNoneMatch : Option String
  deriving Repr, DecidableEq

/-- Headers are kept as an association list in insertion order, as the
JavaScript object literal builds them. -/
abbrev Headers := List (String × String)

/-- Lookup of a header value by exact name. -/
def hget (hs : Headers) (k : String) : Option String :=
  (hs.find? (fun kv => kv.1 = k)).map (fun kv => kv.2)

/-- A cache entry: the response headers and full body snapshot stored by
`_cache[req.url] = ... ` in `onRead`. -/
structure Entry where
  headers : Headers
  body : String
  deriving Repr, DecidableEq

/-- The module-level `_cache` object, modelled as an association list
from raw request URL to entry. -/
abbrev CacheMap := List (String × Entry)

/-- Model of `_cache[key]` property read. -/
def cacheGet (st : CacheMap) (k : String) : Option Entry :=
  (st.find? (fun kv => kv.1 = k)).map (fun kv => kv.2)

/-- Model of `_cache[key] = e` property write (replaces any previous
binding for the key). -/
def cacheSet (st : CacheMap) (k : String) (e : Entry) : CacheMap :=
  (k, e) :: st.filter (fun kv => kv.1 ≠ k)

/-- Model of `delete _cache[key]`. -/
def cacheErase (st : CacheMap) (k : String) : CacheMap :=
  st.filter (fun kv => kv.1 ≠ k)

/-- Model of a filesystem error object; the handler only inspects
`err.errno`. -/
structure FsError where
  errno : Nat
  deriving Repr, DecidableEq

/-- Model of `process.ENOENT`. -/
def ENOENT : Nat := 2

/-- What `fs.stat` reports for an existing path: either a directory, or
a regular file with its byte size, its mtime as milliseconds since the
epoch (`Number(stat.mtime)`) and the HTTP date string
`stat.mtime.toUTCString()`. -/
inductive FsEntry where
  | dir : FsEntry
  | file (size : Nat) (mtimeMs : Int) (mtimeHttp : String) : FsEntry
  deriving Repr, DecidableEq

/-- Model of the filesystem as seen through `fs.stat` and
`fs.readFile`: each is a total map from path to result.  The two maps
are independent so that a read failing after a successful stat is
representable. -/
structure Fs where
  statRes : String → Except FsError FsEntry
  readRes : String → Except FsError String

/-- The environment collaborators the handler delegates to:
`mime.lookup` (opaque path-to-content-type map) and JavaScript date
parsing `new Date(string).getTime()` (`none` models an invalid date,
i.e. `NaN`). -/
structure Env where
  mimeLookup : String → String
  parseDate : String → Option Int

/-- Resolved configuration of one `static(root, options)` instance:
the root path, the resolved `maxAge` in milliseconds, and whether the
in-memory cache is enabled. -/
structure Config where
  root : String
  maxAge : Nat
  cache : Bool
  deriving Repr, DecidableEq

/-- The `cache` option as passed by a caller: absent/false, `true`, or
a numeric max-age-equivalent value in milliseconds. -/
inductive CacheOpt where
  | off : CacheOpt
  | boolTrue : CacheOpt
  | millis (n : Nat) : CacheOpt
  deriving Repr, DecidableEq

/-- JavaScript truthiness of the `cache` option (`0` is falsy). -/
def CacheOpt.enabled : CacheOpt → Bool
  | .off => false
  | .boolTrue => true
  | .millis n => n ≠ 0

/-- Numeric coercion of the `cache` option as the later division
`maxAge / 1000` sees it (`Number(true) = 1`). -/
def CacheOpt.toNum : CacheOpt → Nat
  | .off => 0
  | .boolTrue => 1
  | .millis n => n

/-- Option resolution from the head of `static(root, options)`:
`maxAge = options.maxAge || 0` and `if (cache && !maxAge) maxAge =
cache`. -/
def resolveConfig (root : String) (optMaxAge : Nat) (cache : CacheOpt) : Config :=
  let maxAge := if optMaxAge ≠ 0 then optMaxAge
    else if cache.enabled then cache.toNum else 0
  ⟨root, maxAge, cache.enabled⟩

/-- Model of `parseUrl(req.url).pathname`: the characters before the
first `?` (query) or `#` (fragment). -/
def pathname (url : String) : String :=
  String.mk (url.toList.takeWhile (fun c => c ≠ '?' ∧ c ≠ '#'))

/-- Value of a hexadecimal digit, if the character is one. -/
def hexVal (c : Char) : Option Nat :=
  if '0' ≤ c ∧ c ≤ '9' then some (c.toNat - '0'.toNat)
  else if 'a' ≤ c ∧ c ≤ 'f' then some (c.toNat - 'a'.toNat + 10)
  else if 'A' ≤ c ∧ c ≤ 'F' then some (c.toNat - 'A'.toNat + 10)
  else none

/-- Model of `decodeURIComponent` on a character list: each `%hh`
escape becomes the character with code `hh`; a malformed escape makes
the whole call throw `URIError`, modelled as `none`.  (Multi-byte UTF-8
sequences are modelled byte by byte; the claims only exercise ASCII.) -/
def percentDecodeL : List Char → Option (List Char)
  | [] => some []
  | '%' :: h1 :: h2 :: rest =>
    match hexVal h1, hexVal h2, percentDecodeL rest with
    | some a, some b, some r => some (Char.ofNat (16 * a + b) :: r)
    | _, _, _ => none
  | '%' :: _ => none
  | c :: rest =>
    if c = '%' then none
    else (percentDecodeL rest).map (fun r => c :: r)

/-- Model of `decodeURIComponent` on strings. -/
def percentDecode (s : String) : Option String :=
  (percentDecodeL s.toList).map String.mk

/-- The check `~filename.indexOf('..')`: does the character list
contain two consecutive dots anywhere? -/
def containsDotDotL : List Char → Bool
  | [] => false
  | [_] => false
  | c1 :: c2 :: rest => decide (c1 = '.' ∧ c2 = '.') || containsDotDotL (c2 :: rest)

/-- The check `~filename.indexOf('..')` on strings. -/
def containsDotDot (s : String) : Bool :=
  containsDotDotL s.toList

/-- Model of `Path.join(root, pathname)` for the paths that reach it
here: plain concatenation (the decoded path always begins with `/` and
contains no `..`, so Node's normalisation is the identity on the
separator structure the claims depend on). -/
def pathJoin (root p : String) : String := root ++ p

/-- The `index.html` default-document rule: `if
(filename[filename.length - 1] === '/') filename += "index.html"`. -/
def addIndex (filename : String) : String :=
  if filename.toList.getLast? = some '/' then filename ++ "index.html" else filename

/-- Translation of the private `conditionalGET(req)` helper: the
request carries a truthy `if-modified-since` or `if-none-match`. -/
def conditionalGET (req : Req) : Bool :=
  truthy req.ifModifiedSince || truthy req.ifNoneMatch

/-- Translation of the private `etag(stat)` helper:
`stat.size + '-' + Number(stat.mtime)`. -/
def etag (size : Nat) (mtimeMs : Int) : String :=
  toString size ++ "-" ++ toString mtimeMs

/-- Translation of the private `modified(req, headers)` helper,
parameterised by the JavaScript date parser.  `new Date(s)` with an
unparsable `s` yields `NaN`, for which every `<=` comparison is false. -/
def modified (parseDate : String → Option Int) (req : Req) (headers : Headers) : Bool :=
  let modifiedSince := req.ifModifiedSince
  let lastModified := hget headers "Last-Modified"
  let noneMatch := req.ifNoneMatch
  let etagV := hget headers "ETag"
  if truthy noneMatch ∧ truthy etagV ∧ noneMatch = etagV then false
  else if truthy modifiedSince ∧ truthy lastModified then
    match parseDate (modifiedSince.getD "") with
    | none => true
    | some ms =>
      match parseDate (lastModified.getD "") with
      | none => true
      | some lm => if lm ≤ ms then false else true
  else true

/-- Reference definition of the conditional validator, written from the
specification text: an `if-none-match` token equal byte-for-byte to the
candidate ETag means not modified, immediately; otherwise a carried
`if-modified-since` together with a carried `Last-Modified`, when the
former parses as a valid date, means not modified exactly when
`lastModified <= modifiedSince`; every other case means modified. -/
def modifiedSpec (parseDate : String → Option Int) (req : Req) (headers : Headers) : Bool :=
  let modifiedSince := req.ifModifiedSince
  let lastModified := hget headers "Last-Modified"
  let noneMatch := req.ifNoneMatch
  let etagV := hget headers "ETag"
  if truthy noneMatch ∧ noneMatch = etagV then false
  else if truthy modifiedSince ∧ truthy lastModified then
    match parseDate (modifiedSince.getD "") with
    | none => true
    | some ms =>
      match parseDate (lastModified.getD "") with
      | none => true
      | some lm => if lm ≤ ms then false else true
  else true

/-- Drop trailing zero characters (used by the decimal renderer). -/
def stripTrailingZeroChars (l : List Char) : List Char :=
  (l.reverse.dropWhile (fun c => c = '0')).reverse

/-- Three-digit zero-padded decimal of `n < 1000`. -/
def pad3 (n : Nat) : List Char :=
  (if n < 10 then ['0', '0'] else if n < 100 then ['0'] else []) ++ (toString n).toList

/-- Model of the JavaScript rendering of the number `n / 1000` (as in
`"public max-age=" + (maxAge / 1000)`): the integer part, then, when
the division is inexact, a decimal point and the fractional digits with
trailing zeros dropped. -/
def renderDiv1000 (n : Nat) : String :=
  if n % 1000 = 0 then toString (n / 1000)
  else toString (n / 1000) ++ "." ++ String.mk (stripTrailingZeroChars (pad3 (n % 1000)))

/-- The header set built in `onRead` from the stat result. -/
def buildHeaders (env : Env) (cfg : Config) (filename : String)
    (size : Nat) (mtimeMs : Int) (mtimeHttp : String) : Headers :=
  [ ("Content-Type", env.mimeLookup filename)
  , ("Content-Length", toString size)
  , ("Last-Modified", mtimeHttp)
  , ("Cache-Control", "public max-age=" ++ renderDiv1000 cfg.maxAge)
  , ("ETag", etag size mtimeMs) ]

/-- The test `0 == field.indexOf('Content')` from `notModified`: the
header name starts with the seven characters `Content`. -/
def contentNamed (k : String) : Bool :=
  "Content".toList.isPrefixOf k.toList

/-- The header strip in `notModified`: delete every header whose name
has `'Content'` at index 0. -/
def stripContentHeaders (hs : Headers) : Headers :=
  hs.filter (fun kv => ! contentNamed kv.1)

/-- What the handler did with the response / continuation:
`next err` models `next()` (with `err = none`) or `next(err)`;
`respond status headers body` models `writeHead` plus `end`
(`body = none` when `end()` was called with no data);
`uriError` models `decodeURIComponent` throwing on a malformed
escape. -/
inductive Outcome where
  | next (err : Option FsError) : Outcome
  | respond (status : Nat) (headers : Headers) (body : Option String) : Outcome
  | uriError : Outcome
  deriving Repr, DecidableEq

/-- Counters of the observable effects of one request: `fs.stat`
calls, `fs.readFile` calls, and reads of the `_cache` store. -/
structure Ops where
  statCalls : Nat
  readCalls : Nat
  cacheLookups : Nat
  deriving Repr, DecidableEq

/-- Result of running the handler once: the outcome, the cache store
afterwards, and the effect counters. -/
structure HandlerResult where
  outcome : Outcome
  cache : CacheMap
  ops : Ops
  deriving Repr, DecidableEq

/-- The `forbidden(res)` helper: 403, `text/plain`, body `Forbidden`
(whose `length` is 9). -/
def forbiddenResult (st : CacheMap) : HandlerResult :=
  ⟨.respond 403 [("Content-Type", "text/plain"), ("Content-Length", "9")]
      (some "Forbidden"), st, ⟨0, 0, 0⟩⟩

/-- The tail of the handler from `fs.stat` onward: the stat callback,
`onRead`, the conditional check, the 200 response and the cache
population.  `lookups` records whether the cache was consulted before
reaching the filesystem. -/
def serveFromFs (cfg : Config) (env : Env) (req : Req) (head : Bool)
    (filename : String) (st : CacheMap) (fs : Fs) (lookups : Nat) : HandlerResult :=
  match fs.statRes filename with
  | .error e =>
    if e.errno = ENOENT then ⟨.next none, st, ⟨1, 0, lookups⟩⟩
    else ⟨.next (some e), st, ⟨1, 0, lookups⟩⟩
  | .ok .dir => ⟨.next none, st, ⟨1, 0, lookups⟩⟩
  | .ok (.file size mtimeMs mtimeHttp) =>
    match fs.readRes filename with
    | .error e => ⟨.next (some e), st, ⟨1, 1, lookups⟩⟩
    | .ok data =>
      let headers := buildHeaders env cfg filename size mtimeMs mtimeHttp
      if modified env.parseDate req headers then
        let body : Option String := if head then none else some data
        let st2 := if cfg.cache then cacheSet st req.url ⟨headers, data⟩ else st
        ⟨.respond 200 headers body, st2, ⟨1, 1, lookups⟩⟩
      else
        ⟨.respond 304 (stripContentHeaders headers) none, st, ⟨1, 1, lookups⟩⟩

/-- The request handler returned by `static(root, options)`, as a pure
function of the request, the current cache store and the filesystem. -/
def handle (cfg : Config) (env : Env) (req : Req) (st : CacheMap) (fs : Fs) : HandlerResult :=
  if req.method ≠ "GET" ∧ req.method ≠ "HEAD" then ⟨.next none, st, ⟨0, 0, 0⟩⟩
  else
    let head := req.method = "HEAD"
    match percentDecode (pathname req.url) with
    | none => ⟨.uriError, st, ⟨0, 0, 0⟩⟩
    | some decoded =>
      if containsDotDot decoded then forbiddenResult st
      else
        let filename := addIndex (pathJoin cfg.root decoded)
        if cfg.cache ∧ ¬ conditionalGET req then
          match cacheGet st req.url with
          | some hit =>
            ⟨.respond 200 hit.headers (if head then none else some hit.body), st, ⟨0, 0, 1⟩⟩
          | none => serveFromFs cfg env req head filename st fs 1
        else serveFromFs cfg env req head filename st fs 0

/-- The exported `clearCache(key)` function: a truthy key deletes that
entry, otherwise the whole store is replaced by an empty one.  The
argument is `none` for a call with no argument. -/
def clearCache (key : Option String) (st : CacheMap) : CacheMap :=
  if truthy key then cacheErase st (key.getD "") else []

/-- Splitting a character list at `/` separators, for talking about
path segments. -/
def splitSlash : List Char → List (List Char)
  | [] => [[]]
  | c :: rest =>
    if c = '/' then [] :: splitSlash rest
    else
      match splitSlash rest with
      | [] => [[c]]
      | seg :: segs => (c :: seg) :: segs

/-- A path contains a parent-directory segment when splitting it at
slashes yields the segment `..`. -/
def hasDotDotSegment (s : String) : Bool :=
  decide (['.', '.'] ∈ splitSlash s.toList)

/-- A concrete environment used to instantiate theorems on closed
inputs: a constant MIME map and a date parser knowing two dates. -/
def envW : Env :=
  ⟨fun _ => "text/html",
   fun s => if s = "lmA" then some 1000 else if s = "imsB" then some 2000 else none⟩

/-- A concrete filesystem with one regular file `/pub/a.txt` holding
`hello`, one directory `/pub/d`, one unreadable file `/pub/locked`,
and a path `/pub/report..txt` that also exists. -/
def fsW : Fs :=
  ⟨fun q =>
      if q = "/pub/a.txt" then .ok (.file 5 1234 "lmA")
      else if q = "/pub/report..txt" then .ok (.file 2 99 "lmA")
      else if q = "/pub/d" then .ok .dir
      else if q = "/pub/locked" then .ok (.file 1 7 "lmA")
      else if q = "/pub/ioerr" then .error ⟨13⟩
      else .error ⟨ENOENT⟩,
   fun q =>
      if q = "/pub/a.txt" then .ok "hello"
      else if q = "/pub/report..txt" then .ok "ok"
      else if q = "/pub/locked" then .error ⟨13⟩
      else .error ⟨ENOENT⟩⟩

/-- A concrete configuration with caching enabled and the default
`maxAge` of 0. -/
def cfgW : Config := ⟨"/pub", 0, true⟩

/-- The same configuration with caching disabled. -/
def cfgW2 : Config := ⟨"/pub", 0, false⟩

/-- A concrete plain GET request for `/a.txt`. -/
def reqW : Req := ⟨"GET", "/a.txt", none, none⟩

/-- A concrete cache entry for counterexample and witness inputs. -/
def entryW : Entry := ⟨[("Content-Type", "text/plain")], "x"⟩

/-! Helper lemmas -/

theorem containsDotDotL_cons (c : Char) (l : List Char)
    (h : containsDotDotL l = true) : containsDotDotL (c :: l) = true := by
  cases l with
  | nil => simp [containsDotDotL] at h
  | cons c2 t => simp [containsDotDotL, h]

theorem splitSlash_head_starts (l : List Char) (seg : List Char) (segs : List (List Char))
    (h : splitSlash l = seg :: segs) : seg <+: l := by
  induction l generalizing seg segs with
  | nil =>
    rw [splitSlash] at h
    cases h
    exact List.nil_prefix
  | cons c rest ih =>
    rw [splitSlash] at h
    by_cases hc : c = '/'
    · rw [if_pos hc] at h
      cases h
      exact List.nil_prefix
    · rw [if_neg hc] at h
      rcases hrest : splitSlash rest with _ | ⟨seg2, segs2⟩
      · rw [hrest] at h
        cases h
        exact ⟨rest, rfl⟩
      · rw [hrest] at h
        injection h with h1 h2
        subst h1
        obtain ⟨t, ht⟩ := ih seg2 segs2 hrest
        exact ⟨t, by rw [List.cons_append, ht]⟩

theorem containsDotDotL_of_seg (l : List Char)
    (h : ['.', '.'] ∈ splitSlash l) : containsDotDotL l = true := by
  induction l with
  | nil =>
    rw [splitSlash] at h
    simp at h
  | cons c rest ih =>
    rw [splitSlash] at h
    by_cases hc : c = '/'
    · rw [if_pos hc] at h
      rcases List.mem_cons.mp h with h1 | h2
      · simp at h1
      · exact containsDotDotL_cons _ _ (ih h2)
    · rw [if_neg hc] at h
      rcases hrest : splitSlash rest with _ | ⟨seg2, segs2⟩
      · rw [hrest] at h
        rcases List.mem_cons.mp h with h1 | h2
        · cases h1
        · simp at h2
      · rw [hrest] at h
        rcases List.mem_cons.mp h with h1 | h2
        · have hc1 : c = '.' ∧ seg2 = ['.'] := by
            cases h1.symm
            exact ⟨rfl, rfl⟩
          obtain ⟨hcd, hsd⟩ := hc1
          subst hcd
          obtain ⟨t, ht⟩ := splitSlash_head_starts rest seg2 segs2 hrest
          rw [hsd] at ht
          rw [← ht]
          simp [containsDotDotL]
        · exact containsDotDotL_cons _ _
            (ih (by rw [hrest]; exact List.mem_cons_of_mem _ h2))

theorem containsDotDot_of_hasSeg (s : String)
    (h : hasDotDotSegment s = true) : containsDotDot s = true := by
  unfold hasDotDotSegment at h
  exact containsDotDotL_of_seg _ (of_decide_eq_true h)

theorem cacheGet_cons_pos (a : String × Entry) (t : CacheMap) (k : String)
    (h : a.1 = k) : cacheGet (a :: t) k = some a.2 := by
  unfold cacheGet
  rw [List.find?_cons_of_pos]
  · rfl
  · exact decide_eq_true h

theorem cacheGet_cons_neg (a : String × Entry) (t : CacheMap) (k : String)
    (h : a.1 ≠ k) : cacheGet (a :: t) k = cacheGet t k := by
  unfold cacheGet
  rw [List.find?_cons_of_neg]
  simpa using h

theorem cacheErase_cons (a : String × Entry) (t : CacheMap) (k : String) :
    cacheErase (a :: t) k =
      if a.1 ≠ k then a :: cacheErase t k else cacheErase t k := by
  unfold cacheErase
  rw [List.filter_cons]
  by_cases h : a.1 = k
  · simp [h]
  · simp [h]

theorem cacheGet_cacheSet_self (st : CacheMap) (k : String) (e : Entry) :
    cacheGet (cacheSet st k e) k = some e := by
  unfold cacheSet
  exact cacheGet_cons_pos _ _ _ rfl

theorem cacheGet_erase_self (st : CacheMap) (k : String) :
    cacheGet (cacheErase st k) k = none := by
  induction st with
  | nil => rfl
  | cons a t ih =>
    rw [cacheErase_cons]
    by_cases ha : a.1 = k
    · rw [if_neg (by simpa using ha)]
      exact ih
    · rw [if_pos ha, cacheGet_cons_neg _ _ _ ha]
      exact ih

theorem cacheGet_erase_ne (st : CacheMap) (k k2 : String) (h : k2 ≠ k) :
    cacheGet (cacheErase st k) k2 = cacheGet st k2 := by
  induction st with
  | nil => rfl
  | cons a t ih =>
    rw [cacheErase_cons]
    by_cases ha : a.1 = k
    · have ha2 : a.1 ≠ k2 := by rw [ha]; exact fun hx => h hx.symm
      rw [if_neg (by simpa using ha), cacheGet_cons_neg _ _ _ ha2]
      exact ih
    · by_cases hb : a.1 = k2
      · rw [if_pos ha, cacheGet_cons_pos _ _ _ hb, cacheGet_cons_pos _ _ _ hb]
      · rw [if_pos ha, cacheGet_cons_neg _ _ _ hb, cacheGet_cons_neg _ _ _ hb]
        exact ih

theorem modified_of_not_conditional (pd : String → Option Int) (req : Req)
    (hs : Headers) (h : conditionalGET req = false) :
    modified pd req hs = true := by
  have h2 : truthy req.ifModifiedSince = false ∧ truthy req.ifNoneMatch = false :=
    Bool.or_eq_false_iff.mp (by simpa [conditionalGET] using h)
  simp only [modified]
  rw [if_neg, if_neg]
  · rintro ⟨ha, -⟩
    rw [h2.1] at ha
    exact Bool.false_ne_true ha
  · rintro ⟨ha, -, -⟩
    rw [h2.2] at ha
    exact Bool.false_ne_true ha

theorem conditional_of_not_modified (pd : String → Option Int) (req : Req)
    (hs : Headers) (h : modified pd req hs = false) :
    conditionalGET req = true := by
  simp only [modified] at h
  split at h
  · rename_i hc
    simp [conditionalGET, hc.1]
  · split at h
    · rename_i hc
      simp [conditionalGET, hc.1]
    · exact absurd h (by simp)

theorem serveFromFs_ops (cfg : Config) (env : Env) (req : Req) (head : Bool)
    (f : String) (st : CacheMap) (fs : Fs) (l : Nat) :
    ∃ r, (serveFromFs cfg env req head f st fs l).ops = ⟨1, r, l⟩ := by
  unfold serveFromFs
  cases hstat : fs.statRes f with
  | error e =>
    by_cases he : e.errno = ENOENT
    · exact ⟨0, by simp [he]⟩
    · exact ⟨0, by simp [he]⟩
  | ok entry =>
    cases entry with
    | dir => exact ⟨0, rfl⟩
    | file size ms mh =>
      cases hread : fs.readRes f with
      | error e2 => exact ⟨1, rfl⟩
      | ok data =>
        by_cases hm : modified env.parseDate req (buildHeaders env cfg f size ms mh)
        · exact ⟨1, by simp [hm]⟩
        · exact ⟨1, by simp [hm]⟩

theorem handle_fs_path (cfg : Config) (env : Env) (req : Req) (st : CacheMap) (fs : Fs)
    (p : String)
    (hm : req.method = "GET" ∨ req.method = "HEAD")
    (hdec : percentDecode (pathname req.url) = some p)
    (hdd : containsDotDot p = false)
    (hnocache : cfg.cache = false ∨ conditionalGET req = true ∨ cacheGet st req.url = none) :
    handle cfg env req st fs =
      serveFromFs cfg env req (decide (req.method = "HEAD"))
        (addIndex (pathJoin cfg.root p)) st fs
        (if cfg.cache = true ∧ conditionalGET req = false then 1 else 0) := by
  have hgate : ¬(req.method ≠ "GET" ∧ req.method ≠ "HEAD") := by
    rcases hm with h1 | h1
    · exact fun hcon => hcon.1 h1
    · exact fun hcon => hcon.2 h1
  simp only [handle, hdec]
  rw [if_neg hgate, if_neg (by simp [hdd])]
  by_cases hcc : cfg.cache = true ∧ conditionalGET req = false
  · have hmiss : cacheGet st req.url = none := by
      rcases hnocache with h1 | h1 | h1
      · rw [h1] at hcc
        exact absurd hcc.1 (by simp)
      · rw [h1] at hcc
        exact absurd hcc.2 (by simp)
      · exact h1
    rw [if_pos ⟨hcc.1, by simp [hcc.2]⟩, if_pos hcc, hmiss]
  · rw [if_neg, if_neg hcc]
    intro hcon
    exact hcc ⟨hcon.1, by simpa using hcon.2⟩

/-- C1: the conditional validator `modified(req, headers)` agrees with
the reference definition written from the specification: an
`if-none-match` token equal byte-for-byte to the candidate ETag means
not modified immediately, with no if-modified-since evaluation;
otherwise a carried `if-modified-since` with a carried last-modified,
when the former parses as a valid date, means not modified exactly when
`lastModified <= modifiedSince`; every other case means modified. -/
theorem modified_eq_reference (pd : String → Option Int) (req : Req) (hs : Headers) :
    modified pd req hs = modifiedSpec pd req hs := by
  simp only [modified, modifiedSpec]
  by_cases h1 : truthy req.ifNoneMatch = true
  · by_cases h2 : req.ifNoneMatch = hget hs "ETag"
    · have h3 : truthy (hget hs "ETag") = true := h2 ▸ h1
      rw [if_pos ⟨h1, h3, h2⟩, if_pos ⟨h1, h2⟩]
    · rw [if_neg (fun hc : truthy req.ifNoneMatch = true ∧
            truthy (hget hs "ETag") = true ∧ req.ifNoneMatch = hget hs "ETag" =>
            h2 hc.2.2),
          if_neg (fun hc : truthy req.ifNoneMatch = true ∧
            req.ifNoneMatch = hget hs "ETag" => h2 hc.2)]
  · rw [if_neg (fun hc : truthy req.ifNoneMatch = true ∧
          truthy (hget hs "ETag") = true ∧ req.ifNoneMatch = hget hs "ETag" =>
          h1 hc.1),
        if_neg (fun hc : truthy req.ifNoneMatch = true ∧
          req.ifNoneMatch = hget hs "ETag" => h1 hc.1)]

/-- C3: a GET or HEAD request whose percent-decoded path contains a
`..` parent-directory segment is answered 403 with the plain-text body
`Forbidden`, the cache store is untouched, and no filesystem or cache
access happens. -/
theorem handle_forbidden_dotdot_segment (cfg : Config) (env : Env) (req : Req)
    (st : CacheMap) (fs : Fs) (p : String)
    (hm : req.method = "GET" ∨ req.method = "HEAD")
    (hdec : percentDecode (pathname req.url) = some p)
    (hseg : hasDotDotSegment p = true) :
    handle cfg env req st fs =
      ⟨.respond 403 [("Content-Type", "text/plain"), ("Content-Length", "9")]
          (some "Forbidden"), st, ⟨0, 0, 0⟩⟩ := by
  have hdd := containsDotDot_of_hasSeg p hseg
  have hgate : ¬(req.method ≠ "GET" ∧ req.method ≠ "HEAD") := by
    rcases hm with h1 | h1
    · exact fun hcon => hcon.1 h1
    · exact fun hcon => hcon.2 h1
  simp only [handle, hdec]
  rw [if_neg hgate, if_pos (by simp [hdd])]
  rfl

/-- C3 witness: the request `GET /secret/../etc/passwd` against a
filesystem in which the target even exists is answered 403 Forbidden
without touching the filesystem or the cache. -/
theorem handle_forbidden_dotdot_segment_witness :
    (⟨"GET", "/secret/../etc", none, none⟩ : Req).method = "GET" ∧
    percentDecode (pathname "/secret/../etc") = some "/secret/../etc" ∧
    hasDotDotSegment "/secret/../etc" = true ∧
    handle cfgW envW ⟨"GET", "/secret/../etc", none, none⟩ [] fsW =
      ⟨.respond 403 [("Content-Type", "text/plain"), ("Content-Length", "9")]
          (some "Forbidden"), [], ⟨0, 0, 0⟩⟩ :=
  ⟨rfl, by decide,
   by decide,
   handle_forbidden_dotdot_segment cfgW envW ⟨"GET", "/secret/../etc", none, none⟩ [] fsW
     "/secret/../etc" (Or.inl rfl) (by decide) (by decide)⟩

/-- C10: the traversal rejection fires on any two consecutive dots in
the decoded path, segment or not: every GET or HEAD request whose
decoded path contains the substring `..` anywhere is answered 403
Forbidden with no filesystem or cache access, even when the path names
an existing file. -/
theorem handle_forbidden_dotdot_substring (cfg : Config) (env : Env) (req : Req)
    (st : CacheMap) (fs : Fs) (p : String)
    (hm : req.method = "GET" ∨ req.method = "HEAD")
    (hdec : percentDecode (pathname req.url) = some p)
    (hsub : containsDotDot p = true) :
    handle cfg env req st fs =
      ⟨.respond 403 [("Content-Type", "text/plain"), ("Content-Length", "9")]
          (some "Forbidden"), st, ⟨0, 0, 0⟩⟩ := by
  have hgate : ¬(req.method ≠ "GET" ∧ req.method ≠ "HEAD") := by
    rcases hm with h1 | h1
    · exact fun hcon => hcon.1 h1
    · exact fun hcon => hcon.2 h1
  simp only [handle, hdec]
  rw [if_neg hgate, if_pos (by simp [hsub])]
  rfl

/-- C10 witness: `GET /report..txt` names no parent directory and the
file `/pub/report..txt` exists in the model filesystem, yet the
response is 403 Forbidden and the filesystem is never consulted. -/
theorem handle_forbidden_dotdot_substring_witness :
    hasDotDotSegment "/report..txt" = false ∧
    fsW.statRes "/pub/report..txt" = .ok (.file 2 99 "lmA") ∧
    containsDotDot "/report..txt" = true ∧
    handle cfgW envW ⟨"GET", "/report..txt", none, none⟩ [] fsW =
      ⟨.respond 403 [("Content-Type", "text/plain"), ("Content-Length", "9")]
          (some "Forbidden"), [], ⟨0, 0, 0⟩⟩ :=
  ⟨by decide, rfl, by decide,
   handle_forbidden_dotdot_substring cfgW envW ⟨"GET", "/report..txt", none, none⟩ [] fsW
     "/report..txt" (Or.inl rfl) (by decide) (by decide)⟩

/-- C4: the cache lookup happens exactly when caching is enabled and
the request carries no validator; the key is the raw request URL; a hit
is answered 200 with the cached headers, the cached body for GET, no
body for HEAD, and no filesystem access; any request with a validator
(or disabled caching) skips the lookup and goes to the filesystem. -/
theorem handle_cache_gate (cfg : Config) (env : Env) (req : Req)
    (st : CacheMap) (fs : Fs) (p : String)
    (hm : req.method = "GET" ∨ req.method = "HEAD")
    (hdec : percentDecode (pathname req.url) = some p)
    (hdd : containsDotDot p = false) :
    ((cfg.cache = true ∧ conditionalGET req = false) →
      ∀ hit, cacheGet st req.url = some hit →
        handle cfg env req st fs =
          ⟨.respond 200 hit.headers
              (if req.method = "HEAD" then none else some hit.body), st, ⟨0, 0, 1⟩⟩)
    ∧ (¬(cfg.cache = true ∧ conditionalGET req = false) →
      (handle cfg env req st fs).ops.cacheLookups = 0 ∧
      (handle cfg env req st fs).ops.statCalls = 1) := by
  have hgate : ¬(req.method ≠ "GET" ∧ req.method ≠ "HEAD") := by
    rcases hm with h1 | h1
    · exact fun hcon => hcon.1 h1
    · exact fun hcon => hcon.2 h1
  constructor
  · intro hcc hit hhit
    simp only [handle, hdec]
    rw [if_neg hgate, if_neg (by simp [hdd]), if_pos ⟨hcc.1, by simp [hcc.2]⟩, hhit]
  · intro hcc
    have hnocache : cfg.cache = false ∨ conditionalGET req = true ∨
        cacheGet st req.url = none := by
      by_cases h1 : cfg.cache = true
      · by_cases h2 : conditionalGET req = false
        · exact absurd ⟨h1, h2⟩ hcc
        · exact Or.inr (Or.inl (by simpa using h2))
      · exact Or.inl (by simpa using h1)
    rw [handle_fs_path cfg env req st fs p hm hdec hdd hnocache]
    obtain ⟨r, hops⟩ := serveFromFs_ops cfg env req (decide (req.method = "HEAD"))
      (addIndex (pathJoin cfg.root p)) st fs
      (if cfg.cache = true ∧ conditionalGET req = false then 1 else 0)
    rw [hops]
    exact ⟨by rw [if_neg hcc], rfl⟩

/-- C4 witness: a cache hit on `/a.txt` is served from the store with
no filesystem access, while the same URL with an `if-modified-since`
header skips the lookup and stats the filesystem. -/
theorem handle_cache_gate_witness :
    handle cfgW envW reqW [("/a.txt", entryW)] fsW =
      ⟨.respond 200 entryW.headers (some entryW.body), [("/a.txt", entryW)], ⟨0, 0, 1⟩⟩ ∧
    (handle cfgW envW ⟨"GET", "/a.txt", some "imsB", none⟩
        [("/a.txt", entryW)] fsW).ops.cacheLookups = 0 ∧
    (handle cfgW envW ⟨"GET", "/a.txt", some "imsB", none⟩
        [("/a.txt", entryW)] fsW).ops.statCalls = 1 := by
  refine ⟨?_, ?_, ?_⟩
  · have h := (handle_cache_gate cfgW envW reqW [("/a.txt", entryW)] fsW "/a.txt"
      (Or.inl rfl) (by decide) (by decide)).1 ⟨rfl, rfl⟩ entryW (by decide)
    simpa using h
  · exact ((handle_cache_gate cfgW envW ⟨"GET", "/a.txt", some "imsB", none⟩
      [("/a.txt", entryW)] fsW "/a.txt" (Or.inl rfl) (by decide) (by decide)).2
      (by decide)).1
  · exact ((handle_cache_gate cfgW envW ⟨"GET", "/a.txt", some "imsB", none⟩
      [("/a.txt", entryW)] fsW "/a.txt" (Or.inl rfl) (by decide) (by decide)).2
      (by decide)).2

/-- C5: a first-time (cache-miss, unconditional) GET of an existing
regular file is answered 200; the Content-Length header is the byte
length of the served body and the ETag header is
`<size>-<mtimeMilliseconds>` from the stat result. -/
theorem handle_first_get (cfg : Config) (env : Env) (req : Req)
    (st : CacheMap) (fs : Fs) (p : String) (size : Nat) (mtimeMs : Int)
    (mtimeHttp : String) (data : String)
    (hm : req.method = "GET")
    (hdec : percentDecode (pathname req.url) = some p)
    (hdd : containsDotDot p = false)
    (hnc : conditionalGET req = false)
    (hmiss : cacheGet st req.url = none)
    (hstat : fs.statRes (addIndex (pathJoin cfg.root p)) =
      .ok (.file size mtimeMs mtimeHttp))
    (hread : fs.readRes (addIndex (pathJoin cfg.root p)) = .ok data)
    (hlen : data.length = size) :
    (handle cfg env req st fs).outcome =
      .respond 200
        (buildHeaders env cfg (addIndex (pathJoin cfg.root p)) size mtimeMs mtimeHttp)
        (some data) ∧
    hget (buildHeaders env cfg (addIndex (pathJoin cfg.root p)) size mtimeMs mtimeHttp)
        "Content-Length" = some (toString data.length) ∧
    hget (buildHeaders env cfg (addIndex (pathJoin cfg.root p)) size mtimeMs mtimeHttp)
        "ETag" = some (toString size ++ "-" ++ toString mtimeMs) := by
  subst hlen
  refine ⟨?_, ?_, ?_⟩
  · rw [handle_fs_path cfg env req st fs p (Or.inl hm) hdec hdd
      (Or.inr (Or.inr hmiss))]
    simp only [serveFromFs, hstat, hread]
    rw [if_pos (modified_of_not_conditional env.parseDate req _ hnc)]
    simp [hm]
  · simp [hget, buildHeaders, List.find?]
  · simp [hget, buildHeaders, List.find?, etag]

/-- C5 witness: the first GET of `/a.txt` (5 bytes, mtime 1234) yields
200 with Content-Length 5 and ETag `5-1234`. -/
theorem handle_first_get_witness :
    fsW.statRes "/pub/a.txt" = .ok (.file 5 1234 "lmA") ∧
    fsW.readRes "/pub/a.txt" = .ok "hello" ∧
    (handle cfgW envW reqW [] fsW).outcome =
      .respond 200 (buildHeaders envW cfgW "/pub/a.txt" 5 1234 "lmA") (some "hello") ∧
    hget (buildHeaders envW cfgW "/pub/a.txt" 5 1234 "lmA") "Content-Length"
      = some "5" ∧
    hget (buildHeaders envW cfgW "/pub/a.txt" 5 1234 "lmA") "ETag" = some "5-1234" := by
  have h := handle_first_get cfgW envW reqW [] fsW "/a.txt" 5 1234 "lmA" "hello"
    rfl (by decide) (by decide) (by decide) rfl rfl rfl (by decide)
  exact ⟨rfl, rfl, h.1, h.2.1, h.2.2⟩

/-- C6: whenever the conditional validator reports not-modified, the
response is 304 carrying only the headers whose names do not begin with
`Content` — Last-Modified, Cache-Control and ETag survive the strip,
Content-Type and Content-Length do not — and no body is written. -/
theorem handle_not_modified (cfg : Config) (env : Env) (req : Req)
    (st : CacheMap) (fs : Fs) (p : String) (size : Nat) (mtimeMs : Int)
    (mtimeHttp : String) (data : String)
    (hm : req.method = "GET" ∨ req.method = "HEAD")
    (hdec : percentDecode (pathname req.url) = some p)
    (hdd : containsDotDot p = false)
    (hstat : fs.statRes (addIndex (pathJoin cfg.root p)) =
      .ok (.file size mtimeMs mtimeHttp))
    (hread : fs.readRes (addIndex (pathJoin cfg.root p)) = .ok data)
    (hnm : modified env.parseDate req
      (buildHeaders env cfg (addIndex (pathJoin cfg.root p)) size mtimeMs mtimeHttp)
      = false) :
    handle cfg env req st fs =
      ⟨.respond 304 [("Last-Modified", mtimeHttp),
          ("Cache-Control", "public max-age=" ++ renderDiv1000 cfg.maxAge),
          ("ETag", etag size mtimeMs)] none, st, ⟨1, 1, 0⟩⟩ ∧
    (([("Last-Modified", mtimeHttp),
        ("Cache-Control", "public max-age=" ++ renderDiv1000 cfg.maxAge),
        ("ETag", etag size mtimeMs)] : Headers).all
      (fun kv => ! contentNamed kv.1)) = true := by
  have hcond : conditionalGET req = true :=
    conditional_of_not_modified env.parseDate req _ hnm
  constructor
  · rw [handle_fs_path cfg env req st fs p hm hdec hdd (Or.inr (Or.inl hcond))]
    simp only [serveFromFs, hstat, hread]
    rw [if_neg (by simp [hnm]), if_neg (by simp [hcond])]
    rfl
  · rfl

/-- C6 witness: a GET of `/a.txt` with `if-modified-since` at or after
the file's last-modified time is answered 304 with only Last-Modified,
Cache-Control and ETag, and no body. -/
theorem handle_not_modified_witness :
    modified envW.parseDate ⟨"GET", "/a.txt", some "imsB", none⟩
      (buildHeaders envW cfgW "/pub/a.txt" 5 1234 "lmA") = false ∧
    handle cfgW envW ⟨"GET", "/a.txt", some "imsB", none⟩ [] fsW =
      ⟨.respond 304 [("Last-Modified", "lmA"),
          ("Cache-Control", "public max-age=0"), ("ETag", "5-1234")] none,
        [], ⟨1, 1, 0⟩⟩ := by
  have h := handle_not_modified cfgW envW ⟨"GET", "/a.txt", some "imsB", none⟩
    [] fsW "/a.txt" 5 1234 "lmA" "hello" (Or.inl rfl) (by decide) (by decide)
    rfl rfl (by decide)
  exact ⟨by decide, h.1⟩

/-- C7 counterexample: the default-configuration GET of `/a.txt`
produces a full 200 response whose Cache-Control value is
`public max-age=0` — there is no comma after `public`, so the value is
not `public, max-age=0` as the claim states. -/
theorem cacheControl_no_comma_cex :
    (handle cfgW2 envW reqW [] fsW).outcome =
      .respond 200 [("Content-Type", "text/html"), ("Content-Length", "5"),
        ("Last-Modified", "lmA"), ("Cache-Control", "public max-age=0"),
        ("ETag", "5-1234")] (some "hello") ∧
    hget [("Content-Type", "text/html"), ("Content-Length", "5"),
        ("Last-Modified", "lmA"), ("Cache-Control", "public max-age=0"),
        ("ETag", "5-1234")] "Cache-Control" = some "public max-age=0" ∧
    "public max-age=0" ≠ "public, max-age=0" := by
  refine ⟨by decide, by decide, by decide⟩

/-- C7 (amended): every full 200 response built from the filesystem
carries Cache-Control exactly `public max-age=<q>` — with no comma
after `public` — where `q` renders `maxAgeMillis / 1000` as JavaScript
does: the integer number of seconds exactly when the configured maxAge
is a whole number of seconds, a decimal fraction otherwise. -/
theorem handle_cacheControl (cfg : Config) (env : Env) (req : Req)
    (st : CacheMap) (fs : Fs) (p : String) (size : Nat) (mtimeMs : Int)
    (mtimeHttp : String) (data : String)
    (hm : req.method = "GET" ∨ req.method = "HEAD")
    (hdec : percentDecode (pathname req.url) = some p)
    (hdd : containsDotDot p = false)
    (hnocache : cfg.cache = false ∨ conditionalGET req = true ∨
      cacheGet st req.url = none)
    (hstat : fs.statRes (addIndex (pathJoin cfg.root p)) =
      .ok (.file size mtimeMs mtimeHttp))
    (hread : fs.readRes (addIndex (pathJoin cfg.root p)) = .ok data)
    (hmod : modified env.parseDate req
      (buildHeaders env cfg (addIndex (pathJoin cfg.root p)) size mtimeMs mtimeHttp)
      = true) :
    (∃ body, (handle cfg env req st fs).outcome =
      .respond 200
        (buildHeaders env cfg (addIndex (pathJoin cfg.root p)) size mtimeMs mtimeHttp)
        body) ∧
    hget (buildHeaders env cfg (addIndex (pathJoin cfg.root p)) size mtimeMs mtimeHttp)
        "Cache-Control" = some ("public max-age=" ++ renderDiv1000 cfg.maxAge) ∧
    (cfg.maxAge % 1000 = 0 →
      renderDiv1000 cfg.maxAge = toString (cfg.maxAge / 1000)) := by
  refine ⟨?_, ?_, ?_⟩
  · rw [handle_fs_path cfg env req st fs p hm hdec hdd hnocache]
    simp only [serveFromFs, hstat, hread]
    rw [if_pos (by simp [hmod])]
    exact ⟨_, rfl⟩
  · simp [hget, buildHeaders, List.find?]
  · intro hdiv
    unfold renderDiv1000
    rw [if_pos hdiv]

/-- C7 (amended) witness: with `maxAge = 1500` milliseconds the header
reads `public max-age=1.5`; with the default 0 it reads
`public max-age=0`. -/
theorem handle_cacheControl_witness :
    hget (buildHeaders envW ⟨"/pub", 1500, false⟩ "/pub/a.txt" 5 1234 "lmA")
        "Cache-Control" = some "public max-age=1.5" ∧
    (∃ body, (handle ⟨"/pub", 1500, false⟩ envW reqW [] fsW).outcome =
      .respond 200 (buildHeaders envW ⟨"/pub", 1500, false⟩ "/pub/a.txt" 5 1234 "lmA")
        body) ∧
    renderDiv1000 0 = "0" := by
  have h := handle_cacheControl ⟨"/pub", 1500, false⟩ envW reqW [] fsW
    "/a.txt" 5 1234 "lmA" "hello" (Or.inl rfl) (by decide) (by decide)
    (Or.inl rfl) rfl rfl (by decide)
  exact ⟨by decide, h.1, by decide⟩

/-- C8: a stat failing with ENOENT delegates to the next middleware
with no error; a stat failing with any other error forwards that error;
a directory delegates with no error; a read failure after a successful
stat forwards the read error.  No response is written and the cache is
untouched in all four cases. -/
theorem handle_fs_errors (cfg : Config) (env : Env) (req : Req)
    (st : CacheMap) (fs : Fs) (p : String)
    (hm : req.method = "GET" ∨ req.method = "HEAD")
    (hdec : percentDecode (pathname req.url) = some p)
    (hdd : containsDotDot p = false)
    (hnocache : cfg.cache = false ∨ conditionalGET req = true ∨
      cacheGet st req.url = none) :
    (∀ e : FsError, fs.statRes (addIndex (pathJoin cfg.root p)) = .error e →
      e.errno = ENOENT →
      (handle cfg env req st fs).outcome = .next none ∧
      (handle cfg env req st fs).cache = st) ∧
    (∀ e : FsError, fs.statRes (addIndex (pathJoin cfg.root p)) = .error e →
      e.errno ≠ ENOENT →
      (handle cfg env req st fs).outcome = .next (some e) ∧
      (handle cfg env req st fs).cache = st) ∧
    (fs.statRes (addIndex (pathJoin cfg.root p)) = .ok .dir →
      (handle cfg env req st fs).outcome = .next none ∧
      (handle cfg env req st fs).cache = st) ∧
    (∀ (e : FsError) (size : Nat) (mtimeMs : Int) (mtimeHttp : String),
      fs.statRes (addIndex (pathJoin cfg.root p)) = .ok (.file size mtimeMs mtimeHttp) →
      fs.readRes (addIndex (pathJoin cfg.root p)) = .error e →
      (handle cfg env req st fs).outcome = .next (some e) ∧
      (handle cfg env req st fs).cache = st) := by
  rw [handle_fs_path cfg env req st fs p hm hdec hdd hnocache]
  refine ⟨?_, ?_, ?_, ?_⟩
  · intro e he hen
    simp only [serveFromFs, he]
    rw [if_pos hen]
    exact ⟨rfl, rfl⟩
  · intro e he hen
    simp only [serveFromFs, he]
    rw [if_neg hen]
    exact ⟨rfl, rfl⟩
  · intro hdir
    simp [serveFromFs, hdir]
  · intro e size mtimeMs mtimeHttp hfile hrd
    simp [serveFromFs, hfile, hrd]

/-- C8 witness: against the model filesystem, `/nope` (missing) passes
through without error, `/ioerr` (stat error 13) forwards the error,
`/d` (directory) passes through, and `/locked` (stat ok, read error
13) forwards the read error. -/
theorem handle_fs_errors_witness :
    (handle cfgW2 envW ⟨"GET", "/nope", none, none⟩ [] fsW).outcome = .next none ∧
    (handle cfgW2 envW ⟨"GET", "/ioerr", none, none⟩ [] fsW).outcome
      = .next (some ⟨13⟩) ∧
    (handle cfgW2 envW ⟨"GET", "/d", none, none⟩ [] fsW).outcome = .next none ∧
    (handle cfgW2 envW ⟨"GET", "/locked", none, none⟩ [] fsW).outcome
      = .next (some ⟨13⟩) := by
  refine ⟨?_, ?_, ?_, ?_⟩
  · exact ((handle_fs_errors cfgW2 envW ⟨"GET", "/nope", none, none⟩ [] fsW "/nope"
      (Or.inl rfl) (by decide) (by decide) (Or.inl rfl)).1 ⟨ENOENT⟩
      rfl rfl).1
  · exact ((handle_fs_errors cfgW2 envW ⟨"GET", "/ioerr", none, none⟩ [] fsW "/ioerr"
      (Or.inl rfl) (by decide) (by decide) (Or.inl rfl)).2.1 ⟨13⟩
      rfl (by decide)).1
  · exact ((handle_fs_errors cfgW2 envW ⟨"GET", "/d", none, none⟩ [] fsW "/d"
      (Or.inl rfl) (by decide) (by decide) (Or.inl rfl)).2.2.1 rfl).1
  · exact ((handle_fs_errors cfgW2 envW ⟨"GET", "/locked", none, none⟩ [] fsW "/locked"
      (Or.inl rfl) (by decide) (by decide) (Or.inl rfl)).2.2.2 ⟨13⟩ 1 7 "lmA"
      rfl rfl).1

/-- C2: with caching enabled, a second identical unconditional GET
issued after a first one that answered 200, against an unchanged
filesystem, produces a byte-identical outcome (status, headers and
body) and performs no filesystem stat and no filesystem read. -/
theorem handle_cache_idempotent (cfg : Config) (env : Env) (req : Req)
    (st : CacheMap) (fs : Fs) (hdrs : Headers) (b : String)
    (hc : cfg.cache = true)
    (hm : req.method = "GET")
    (hnc : conditionalGET req = false)
    (h200 : (handle cfg env req st fs).outcome = .respond 200 hdrs (some b)) :
    (handle cfg env req (handle cfg env req st fs).cache fs).outcome =
      (handle cfg env req st fs).outcome ∧
    (handle cfg env req (handle cfg env req st fs).cache fs).ops.statCalls = 0 ∧
    (handle cfg env req (handle cfg env req st fs).cache fs).ops.readCalls = 0 := by
  have hgate : ¬(req.method ≠ "GET" ∧ req.method ≠ "HEAD") := fun hcon => hcon.1 hm
  cases hdec : percentDecode (pathname req.url) with
  | none =>
    exfalso
    simp [handle, hdec, hm] at h200
  | some p =>
    by_cases hdd : containsDotDot p = true
    · exfalso
      simp [handle, hdec, hm, hdd, forbiddenResult] at h200
    · have hdd2 : containsDotDot p = false := by simpa using hdd
      cases hhit : cacheGet st req.url with
      | some hit =>
        have h1 : handle cfg env req st fs =
            ⟨.respond 200 hit.headers (some hit.body), st, ⟨0, 0, 1⟩⟩ := by
          simp only [handle, hdec]
          rw [if_neg hgate, if_neg (by simp [hdd2]), if_pos ⟨hc, by simp [hnc]⟩, hhit]
          simp [hm]
        simp [h1]
      | none =>
        have hfs := handle_fs_path cfg env req st fs p (Or.inl hm) hdec hdd2
          (Or.inr (Or.inr hhit))
        rw [hfs] at h200
        cases hstat : fs.statRes (addIndex (pathJoin cfg.root p)) with
        | error e =>
          exfalso
          by_cases hen : e.errno = ENOENT <;> simp [serveFromFs, hstat, hen] at h200
        | ok entry =>
          cases entry with
          | dir =>
            exfalso
            simp [serveFromFs, hstat] at h200
          | file size ms mh =>
            cases hread : fs.readRes (addIndex (pathJoin cfg.root p)) with
            | error e =>
              exfalso
              simp [serveFromFs, hstat, hread] at h200
            | ok data =>
              have hmod := modified_of_not_conditional env.parseDate req
                (buildHeaders env cfg (addIndex (pathJoin cfg.root p)) size ms mh) hnc
              have h1 : handle cfg env req st fs =
                  ⟨.respond 200
                      (buildHeaders env cfg (addIndex (pathJoin cfg.root p)) size ms mh)
                      (some data),
                    cacheSet st req.url
                      ⟨buildHeaders env cfg (addIndex (pathJoin cfg.root p)) size ms mh,
                        data⟩,
                    ⟨1, 1, 1⟩⟩ := by
                rw [hfs]
                simp only [serveFromFs, hstat, hread]
                rw [if_pos (by simp [hmod])]
                simp [hc, hnc, hm]
              have h2 : handle cfg env req
                  (cacheSet st req.url
                    ⟨buildHeaders env cfg (addIndex (pathJoin cfg.root p)) size ms mh,
                      data⟩) fs =
                  ⟨.respond 200
                      (buildHeaders env cfg (addIndex (pathJoin cfg.root p)) size ms mh)
                      (some data),
                    cacheSet st req.url
                      ⟨buildHeaders env cfg (addIndex (pathJoin cfg.root p)) size ms mh,
                        data⟩,
                    ⟨0, 0, 1⟩⟩ := by
                simp only [handle, hdec]
                rw [if_neg hgate, if_neg (by simp [hdd2]), if_pos ⟨hc, by simp [hnc]⟩,
                  cacheGet_cacheSet_self]
                simp [hm]
              simp [h1, h2]

/-- C2 witness: issuing `GET /a.txt` twice with caching enabled: the
first answers 200 and populates the cache, the second returns the
identical outcome with zero stat and zero read calls. -/
theorem handle_cache_idempotent_witness :
    cfgW.cache = true ∧
    (handle cfgW envW reqW [] fsW).outcome =
      .respond 200 (buildHeaders envW cfgW "/pub/a.txt" 5 1234 "lmA") (some "hello") ∧
    (handle cfgW envW reqW (handle cfgW envW reqW [] fsW).cache fsW).outcome =
      (handle cfgW envW reqW [] fsW).outcome ∧
    (handle cfgW envW reqW (handle cfgW envW reqW [] fsW).cache fsW).ops.statCalls = 0 ∧
    (handle cfgW envW reqW (handle cfgW envW reqW [] fsW).cache fsW).ops.readCalls = 0 := by
  have h := handle_cache_idempotent cfgW envW reqW [] fsW
    (buildHeaders envW cfgW "/pub/a.txt" 5 1234 "lmA") "hello" rfl rfl (by decide) rfl
  exact ⟨rfl, rfl, h.1, h.2.1, h.2.2⟩

/-- C9 counterexample: `clearCache` applied to the empty-string key (a
key distinct from `"/a.txt"`) nevertheless removes the `"/a.txt"`
entry, because the source tests the key for JavaScript truthiness and
an empty string is falsy, which triggers the clear-all branch. -/
theorem clearCache_empty_key_cex :
    cacheGet [("/a.txt", entryW)] "/a.txt" = some entryW ∧
    ("" : String) ≠ "/a.txt" ∧
    clearCache (some "") [("/a.txt", entryW)] = [] ∧
    cacheGet (clearCache (some "") [("/a.txt", entryW)]) "/a.txt" = none :=
  ⟨rfl, by decide, rfl, rfl⟩

/-- C9 (amended): `clearCache` with no key or with a falsy (empty
string) key removes every entry; with a non-empty key it removes
exactly that key's entry and leaves every other entry unchanged, a
no-op when the key is absent. -/
theorem clearCache_policy (key : Option String) (st : CacheMap) :
    (truthy key = false → clearCache key st = []) ∧
    (∀ k, key = some k → k ≠ "" →
      cacheGet (clearCache key st) k = none ∧
      ∀ k2, k2 ≠ k → cacheGet (clearCache key st) k2 = cacheGet st k2) := by
  constructor
  · intro h
    unfold clearCache
    rw [if_neg (by simp [h])]
  · rintro k rfl hk
    unfold clearCache
    have ht : truthy (some k) = true := by simpa [truthy] using hk
    rw [if_pos ht]
    exact ⟨cacheGet_erase_self st k, fun k2 h2 => cacheGet_erase_ne st k k2 h2⟩

/-- C9 witness: on a two-entry store, clearing key `/a.txt` empties
that entry and leaves `/b` alone, and a call with no key empties the
store. -/
theorem clearCache_policy_witness :
    cacheGet (clearCache (some "/a.txt") [("/a.txt", entryW), ("/b", entryW)]) "/a.txt"
        = none ∧
    cacheGet (clearCache (some "/a.txt") [("/a.txt", entryW), ("/b", entryW)]) "/b"
        = cacheGet [("/a.txt", entryW), ("/b", entryW)] "/b" ∧
    clearCache none [("/a.txt", entryW), ("/b", entryW)] = [] :=
  ⟨((clearCache_policy (some "/a.txt") [("/a.txt", entryW), ("/b", entryW)]).2
      "/a.txt" rfl (by decide)).1,
   ((clearCache_policy (some "/a.txt") [("/a.txt", entryW), ("/b", entryW)]).2
      "/a.txt" rfl (by decide)).2 "/b" (by decide),
   (clearCache_policy none [("/a.txt", entryW), ("/b", entryW)]).1 rfl⟩

end ConnectStatic
